import Mathlib

/-!
Verification of the change-detection and notification pipeline of the
silver-price bot (src/silver_price_bot.py).  Python dictionaries are
modelled as association lists in insertion order with unique keys,
optional integers as `Option Nat`, floating-point derived values as `ℚ`,
and the monitor loop as a step function on an explicit state.
-/

/-- One product's quotation as stored by `parse_prices` (source lines
283-288): unit label, buy price, optional sell price, and the capture
time (wall-clock timestamps are modelled as plain naturals). -/
structure PriceRecord where
  unit : String
  buy_price : Nat
  sell_price : Option Nat
  timestamp : Nat
deriving DecidableEq

/-- The fields of the `prev` argument that `notify_change` reads: the code
accesses only `prev.get("buy_price", 0)` and `prev.get("sell_price", None)`
(source lines 450, 452), and the new-product sentinel dict carries exactly
these two keys (source line 622). -/
structure PrevQuote where
  buy_price : Nat
  sell_price : Option Nat
deriving DecidableEq

/-- The previous-quotation view of a full price record. -/
def PriceRecord.asPrev (r : PriceRecord) : PrevQuote :=
  ⟨r.buy_price, r.sell_price⟩

/-- A snapshot: a Python dict mapping product name to price record,
modelled as an association list in insertion order with unique keys. -/
abbrev Snapshot := List (String × PriceRecord)

/-- Dict lookup by product name (first entry with the given key). -/
def lookupProduct : Snapshot → String → Option PriceRecord
  | [], _ => none
  | (q, r) :: rest, p => if q = p then some r else lookupProduct rest p

/-- Python's `x or 0` applied to an optional integer, as in
`(cur.get("sell_price") or 0)` (source line 630). -/
def pyOr0 : Option Nat → Nat
  | none => 0
  | some v => v

/-- One per-product change notification, as passed to `notify_change`
(source lines 622 and 637): product name, previous quotation (or the
zero/absent sentinel for a new product), current record. -/
structure ChangeRecord where
  product : String
  previous : PrevQuote
  current : PriceRecord
deriving DecidableEq

/-- For one entry of the current snapshot, the change `compare_and_notify`
emits for it, if any (source lines 618-638): a product absent from the
previous snapshot is reported against the `{buy_price: 0, sell_price: None}`
sentinel; a product present in both is reported iff
`cur["buy_price"] != prev.get("buy_price", 0)` or
`(cur.get("sell_price") or 0) != (prev.get("sell_price") or 0)`. -/
def changeOf (last : Snapshot) (e : String × PriceRecord) : Option ChangeRecord :=
  match lookupProduct last e.1 with
  | none => some ⟨e.1, ⟨0, none⟩, e.2⟩
  | some prev =>
    if e.2.buy_price ≠ prev.buy_price ∨ pyOr0 e.2.sell_price ≠ pyOr0 prev.sell_price then
      some ⟨e.1, prev.asPrev, e.2⟩
    else
      none

/-- `compare_and_notify` (source lines 607-649) as a change-detection
function: with no last-known prices it returns immediately (baseline,
source lines 611-613); otherwise it walks the current snapshot in order
and emits the per-product changes.  Products present only in the previous
snapshot are merely logged (source lines 640-644). -/
def compare_and_notify (last current : Snapshot) : List ChangeRecord :=
  if last.isEmpty then [] else current.filterMap (changeOf last)

theorem lookupProduct_mem {l : Snapshot} {p : String} {r : PriceRecord}
    (h : lookupProduct l p = some r) : (p, r) ∈ l := by
  induction l with
  | nil => simp [lookupProduct] at h
  | cons e rest ih =>
    obtain ⟨q, v⟩ := e
    by_cases hq : q = p
    · subst hq
      simp [lookupProduct] at h
      simp [h]
    · simp only [lookupProduct, if_neg hq] at h
      exact List.mem_cons_of_mem _ (ih h)

theorem lookupProduct_of_nodup {l : Snapshot} {p : String} {r : PriceRecord}
    (hnd : (l.map Prod.fst).Nodup) (h : (p, r) ∈ l) : lookupProduct l p = some r := by
  induction l with
  | nil => simp at h
  | cons e rest ih =>
    obtain ⟨q, v⟩ := e
    simp only [List.map_cons, List.nodup_cons] at hnd
    rcases List.mem_cons.mp h with h1 | h1
    · obtain ⟨hp, hv⟩ := Prod.mk.injEq .. ▸ h1
      simp [lookupProduct, hp.symm, hv]
    · have hq : q ≠ p := by
        intro hq
        exact hnd.1 (hq ▸ (List.mem_map.mpr ⟨(p, r), h1, rfl⟩))
      simp only [lookupProduct, if_neg hq]
      exact ih hnd.2 h1

theorem lookupProduct_none_not_key {l : Snapshot} {p : String}
    (h : lookupProduct l p = none) : p ∉ l.map Prod.fst := by
  induction l with
  | nil => simp
  | cons e rest ih =>
    obtain ⟨q, v⟩ := e
    by_cases hq : q = p
    · simp [lookupProduct, hq] at h
    · simp only [lookupProduct, if_neg hq] at h
      simp only [List.map_cons, List.mem_cons]
      rintro (h1 | h1)
      · exact hq h1.symm
      · exact ih h h1

theorem changeOf_product {last : Snapshot} {e : String × PriceRecord} {c : ChangeRecord}
    (h : changeOf last e = some c) : c.product = e.1 := by
  unfold changeOf at h
  split at h
  · cases Option.some.inj h
    rfl
  · split at h
    · cases Option.some.inj h
      rfl
    · exact absurd h (by simp)

theorem filter_product_eq_nil_of_not_key {last : Snapshot} {l : Snapshot} {p : String}
    (h : p ∉ l.map Prod.fst) :
    (l.filterMap (changeOf last)).filter (fun c => decide (c.product = p)) = [] := by
  induction l with
  | nil => simp
  | cons e rest ih =>
    simp only [List.map_cons, List.mem_cons, not_or] at h
    have hrest := ih h.2
    cases hc : changeOf last e with
    | none => simpa [List.filterMap_cons, hc] using hrest
    | some c =>
      have hcp : c.product = e.1 := changeOf_product hc
      have hne : ¬ e.1 = p := fun h1 => h.1 h1.symm
      simp [List.filterMap_cons, hc, List.filter_cons, hcp, hne, hrest]

theorem changeOf_present {last : Snapshot} {p : String} {prev : PriceRecord} (cur : PriceRecord)
    (h : lookupProduct last p = some prev) :
    changeOf last (p, cur) =
      if cur.buy_price ≠ prev.buy_price ∨ pyOr0 cur.sell_price ≠ pyOr0 prev.sell_price then
        some ⟨p, prev.asPrev, cur⟩
      else none := by
  unfold changeOf
  rw [show (p, cur).1 = p from rfl, h]

theorem changeOf_absent {last : Snapshot} {p : String} (cur : PriceRecord)
    (h : lookupProduct last p = none) :
    changeOf last (p, cur) = some ⟨p, ⟨0, none⟩, cur⟩ := by
  unfold changeOf
  rw [show (p, cur).1 = p from rfl, h]

/-- C1: for a pair of non-empty snapshots with a product present in both,
`compare_and_notify` emits a change notification for that product iff the
current buy price differs from the previous one or the current sell price
(absent read as 0) differs from the previous one (absent read as 0); and on
two identical snapshots no change at all is emitted. -/
theorem C1_change_iff_price_moved :
    (∀ (last current : Snapshot) (p : String) (prev cur : PriceRecord),
      last ≠ [] →
      (current.map Prod.fst).Nodup →
      lookupProduct last p = some prev →
      lookupProduct current p = some cur →
      ((∃ c ∈ compare_and_notify last current, c.product = p) ↔
        (cur.buy_price ≠ prev.buy_price ∨ pyOr0 cur.sell_price ≠ pyOr0 prev.sell_price)))
    ∧ (∀ A : Snapshot, (A.map Prod.fst).Nodup → compare_and_notify A A = []) := by
  constructor
  · intro last current p prev cur hne hnd hprev hcur
    have hempty : last.isEmpty = false := by simp [List.isEmpty_iff, hne]
    simp only [compare_and_notify, hempty, Bool.false_eq_true, if_false]
    constructor
    · rintro ⟨c, hc, hp⟩
      obtain ⟨e, he, hce⟩ := List.mem_filterMap.mp hc
      have he1 : e.1 = p := by rw [← changeOf_product hce, hp]
      have hmem : (p, e.2) ∈ current := by rw [← he1]; simpa using he
      have hlk : lookupProduct current p = some e.2 := lookupProduct_of_nodup hnd hmem
      have he2 : e.2 = cur := Option.some.inj (hlk.symm.trans hcur)
      have heq : e = (p, cur) := Prod.ext_iff.mpr ⟨he1, he2⟩
      rw [heq, changeOf_present cur hprev] at hce
      by_contra hcond
      rw [if_neg hcond] at hce
      exact absurd hce (by simp)
    · intro hcond
      refine ⟨⟨p, prev.asPrev, cur⟩, List.mem_filterMap.mpr ⟨(p, cur), lookupProduct_mem hcur, ?_⟩, rfl⟩
      rw [changeOf_present cur hprev, if_pos hcond]
  · intro A hnd
    by_cases hA : A = []
    · simp [compare_and_notify, hA]
    · have hempty : A.isEmpty = false := by simp [List.isEmpty_iff, hA]
      simp only [compare_and_notify, hempty, Bool.false_eq_true, if_false]
      apply List.filterMap_eq_nil_iff.mpr
      intro e he
      obtain ⟨q, r⟩ := e
      have : lookupProduct A q = some r := lookupProduct_of_nodup hnd he
      rw [changeOf_present r this, if_neg (by simp)]

/-- Witness for C1 at concrete snapshots: a previous snapshot quoting
product A at 10 and a current one quoting it at 12 satisfy the iff, and an
identical pair of snapshots yields no change. -/
theorem C1_change_iff_price_moved_witness :
    ((∃ c ∈ compare_and_notify [("A", ⟨"kg", 10, none, 0⟩)] [("A", ⟨"kg", 12, none, 0⟩)],
        c.product = "A") ↔
      ((⟨"kg", 12, none, 0⟩ : PriceRecord).buy_price ≠ (⟨"kg", 10, none, 0⟩ : PriceRecord).buy_price ∨
        pyOr0 (⟨"kg", 12, none, 0⟩ : PriceRecord).sell_price ≠ pyOr0 (⟨"kg", 10, none, 0⟩ : PriceRecord).sell_price))
    ∧ compare_and_notify [("A", ⟨"kg", 10, none, 0⟩)] [("A", ⟨"kg", 10, none, 0⟩)] = [] :=
  ⟨C1_change_iff_price_moved.1 [("A", ⟨"kg", 10, none, 0⟩)] [("A", ⟨"kg", 12, none, 0⟩)]
      "A" ⟨"kg", 10, none, 0⟩ ⟨"kg", 12, none, 0⟩ (by decide) (by decide) (by decide) (by decide),
    C1_change_iff_price_moved.2 [("A", ⟨"kg", 10, none, 0⟩)] (by decide)⟩

/-- `max_consecutive_errors = 3` (source line 529). -/
def max_consecutive_errors : Nat := 3

/-- The history cap of `self.price_history[-200:]` (source line 546). -/
def historyCap : Nat := 200

/-- Python's list slice `l[-n:]`: the last `n` elements. -/
def keepLast {α : Type} (n : Nat) (l : List α) : List α :=
  l.drop (l.length - n)

/-- The mutable state read and written by one iteration of `monitor_loop`:
`self.last_prices`, `self.price_history` (entries modelled by their snapshot;
wall-clock timestamps are not modelled) and the local `consecutive_errors`
counter. -/
structure LoopState where
  last_prices : Snapshot
  price_history : List Snapshot
  consecutive_errors : Nat
deriving DecidableEq

/-- What one poll produced: `ok s` when `fetch_silver_prices` returned the
(possibly empty) snapshot `s`, `exn` when the loop body raised. -/
inductive FetchOutcome
  | ok (s : Snapshot)
  | exn
deriving DecidableEq

/-- The observable outcome of one `monitor_loop` iteration: the new state,
how many system-alert messages were sent to the group, how long the loop
sleeps before the next fetch, and the change notifications dispatched. -/
structure StepResult where
  state : LoopState
  healthAlerts : Nat
  sleep : Nat
  changes : List ChangeRecord
deriving DecidableEq

/-- One iteration of `monitor_loop` (source lines 532-605).  On a non-empty
fetch: reset the error counter, append to the capped history, run
`compare_and_notify`, adopt the snapshot, sleep `POLL_SECONDS`.  On an empty
fetch: bump the counter, send one group alert when it reaches the threshold
and then set it back to `max_consecutive_errors - 1` (source line 585),
sleep `POLL_SECONDS`.  On an exception: bump the counter, alert at or past
the threshold without resetting, sleep `min(30 * count, 300)`. -/
def monitorStep (pollSeconds : Nat) (st : LoopState) : FetchOutcome → StepResult
  | .ok current =>
    if current.isEmpty then
      let ce := st.consecutive_errors + 1
      if max_consecutive_errors ≤ ce then
        ⟨⟨st.last_prices, st.price_history, max_consecutive_errors - 1⟩, 1, pollSeconds, []⟩
      else
        ⟨⟨st.last_prices, st.price_history, ce⟩, 0, pollSeconds, []⟩
    else
      ⟨⟨current, keepLast historyCap (st.price_history ++ [current]), 0⟩, 0, pollSeconds,
        compare_and_notify st.last_prices current⟩
  | .exn =>
    let ce := st.consecutive_errors + 1
    ⟨⟨st.last_prices, st.price_history, ce⟩,
      if max_consecutive_errors ≤ ce then 1 else 0,
      min (30 * ce) 300, []⟩

/-- Run `monitor_loop` over a sequence of fetch outcomes, returning the final
state and the total number of group alert messages sent. -/
def runLoop (pollSeconds : Nat) (st : LoopState) : List FetchOutcome → LoopState × Nat
  | [] => (st, 0)
  | o :: os =>
    let r := monitorStep pollSeconds st o
    let rest := runLoop pollSeconds r.state os
    (rest.1, r.healthAlerts + rest.2)

/-- C2: with no last-known prices (as on the first successful poll),
`compare_and_notify` emits no change whatever the current snapshot contains,
and the monitor-loop iteration still adopts the (non-empty) current snapshot
as the new last-known one. -/
theorem C2_baseline_no_changes :
    (∀ current : Snapshot, compare_and_notify [] current = [])
    ∧ (∀ (pollSeconds : Nat) (st : LoopState) (current : Snapshot),
        st.last_prices = [] →
        (monitorStep pollSeconds st (.ok current)).changes = []
        ∧ (current.isEmpty = false →
            (monitorStep pollSeconds st (.ok current)).state.last_prices = current)) := by
  constructor
  · intro current
    simp [compare_and_notify]
  · intro pollSeconds st current hlast
    constructor
    · simp only [monitorStep]
      by_cases hc : current.isEmpty
      · rw [if_pos hc]
        split <;> rfl
      · rw [if_neg hc]
        simp [hlast, compare_and_notify]
    · intro hc
      simp only [monitorStep]
      rw [hc]
      simp

/-- Witness for C2: a fresh loop state receiving a one-product snapshot
emits no change and adopts the snapshot. -/
theorem C2_baseline_no_changes_witness :
    compare_and_notify [] [("A", ⟨"kg", 10, none, 0⟩)] = []
    ∧ ((monitorStep 60 ⟨[], [], 0⟩ (.ok [("A", ⟨"kg", 10, none, 0⟩)])).changes = []
      ∧ (([("A", (⟨"kg", 10, none, 0⟩ : PriceRecord)) ] : Snapshot).isEmpty = false →
          (monitorStep 60 ⟨[], [], 0⟩ (.ok [("A", ⟨"kg", 10, none, 0⟩)])).state.last_prices
            = [("A", ⟨"kg", 10, none, 0⟩)])) :=
  ⟨C2_baseline_no_changes.1 [("A", ⟨"kg", 10, none, 0⟩)],
    C2_baseline_no_changes.2 60 ⟨[], [], 0⟩ [("A", ⟨"kg", 10, none, 0⟩)] rfl⟩

theorem filterMap_new_product {last : Snapshot} {p : String}
    (hlast : lookupProduct last p = none) :
    ∀ (current : Snapshot) (cur : PriceRecord),
      (current.map Prod.fst).Nodup →
      lookupProduct current p = some cur →
      (current.filterMap (changeOf last)).filter (fun c => decide (c.product = p))
        = [⟨p, ⟨0, none⟩, cur⟩] := by
  intro current
  induction current with
  | nil =>
    intro cur _ hcur
    simp [lookupProduct] at hcur
  | cons e rest ih =>
    intro cur hnd hcur
    obtain ⟨q, r⟩ := e
    simp only [List.map_cons, List.nodup_cons] at hnd
    by_cases hq : q = p
    · subst hq
      simp [lookupProduct] at hcur
      subst hcur
      rw [List.filterMap_cons, changeOf_absent r hlast]
      simp [List.filter_cons, filter_product_eq_nil_of_not_key hnd.1]
    · simp only [lookupProduct, if_neg hq] at hcur
      rw [List.filterMap_cons]
      cases hc : changeOf last (q, r) with
      | none => simpa using ih cur hnd.2 hcur
      | some c =>
        have hne : ¬ (c.product = p) := by rw [changeOf_product hc]; exact hq
        simp only [List.filter_cons, hne, decide_eq_true_eq, if_neg hne]
        exact ih cur hnd.2 hcur

/-- C3: a product present in the current snapshot but absent from the
non-empty previous snapshot yields exactly one change notification, whose
previous quotation is the `{buy_price: 0, sell_price: None}` sentinel and
whose current record is the product's record in the current snapshot. -/
theorem C3_new_product_sentinel :
    ∀ (last current : Snapshot) (p : String) (cur : PriceRecord),
      last ≠ [] →
      (current.map Prod.fst).Nodup →
      lookupProduct last p = none →
      lookupProduct current p = some cur →
      (compare_and_notify last current).filter (fun c => decide (c.product = p))
        = [⟨p, ⟨0, none⟩, cur⟩] := by
  intro last current p cur hne hnd hlast hcur
  have hempty : last.isEmpty = false := by simp [List.isEmpty_iff, hne]
  simp only [compare_and_notify, hempty, Bool.false_eq_true, if_false]
  exact filterMap_new_product hlast current cur hnd hcur

/-- Witness for C3: product B appears in the current snapshot only, and the
emitted change carries the zero/absent sentinel. -/
theorem C3_new_product_sentinel_witness :
    (compare_and_notify [("A", ⟨"kg", 10, none, 0⟩)]
        [("A", ⟨"kg", 10, none, 0⟩), ("B", ⟨"kg", 7, some 9, 0⟩)]).filter
      (fun c => decide (c.product = "B"))
      = [⟨"B", ⟨0, none⟩, ⟨"kg", 7, some 9, 0⟩⟩] :=
  C3_new_product_sentinel [("A", ⟨"kg", 10, none, 0⟩)]
    [("A", ⟨"kg", 10, none, 0⟩), ("B", ⟨"kg", 7, some 9, 0⟩)] "B" ⟨"kg", 7, some 9, 0⟩
    (by decide) (by decide) (by decide) (by decide)

/-- C4: a product present in the previous snapshot but absent from the
current one produces no change notification (its disappearance is logged
only, source lines 640-644). -/
theorem C4_disappearance_silent :
    ∀ (last current : Snapshot) (p : String) (prev : PriceRecord),
      lookupProduct last p = some prev →
      lookupProduct current p = none →
      (compare_and_notify last current).filter (fun c => decide (c.product = p)) = [] := by
  intro last current p prev hlast hcur
  by_cases hl : last.isEmpty
  · simp [compare_and_notify, hl]
  · unfold compare_and_notify
    rw [if_neg hl]
    exact filter_product_eq_nil_of_not_key (lookupProduct_none_not_key hcur)

/-- Witness for C4: product B disappears from the current snapshot and no
change notification mentions it. -/
theorem C4_disappearance_silent_witness :
    (compare_and_notify [("A", ⟨"kg", 10, none, 0⟩), ("B", ⟨"kg", 7, some 9, 0⟩)]
        [("A", ⟨"kg", 10, none, 0⟩)]).filter (fun c => decide (c.product = "B")) = [] :=
  C4_disappearance_silent [("A", ⟨"kg", 10, none, 0⟩), ("B", ⟨"kg", 7, some 9, 0⟩)]
    [("A", ⟨"kg", 10, none, 0⟩)] "B" ⟨"kg", 7, some 9, 0⟩ (by decide) (by decide)

/-- C6 (code behavior at the failing input): from a fresh state, a run of 3
consecutive empty fetches sends 1 group health alert, but a run of 4 sends
2 — the counter is reset to `max_consecutive_errors - 1` after an alert
(source line 585), so every further failed poll re-crosses the threshold
and alerts again, one alert per poll past the threshold. -/
theorem C6_alert_repeats_past_threshold :
    (runLoop 60 ⟨[], [], 0⟩ (List.replicate 3 (.ok []))).2 = 1
    ∧ (runLoop 60 ⟨[], [], 0⟩ (List.replicate 4 (.ok []))).2 = 2
    ∧ (runLoop 60 ⟨[], [], 0⟩ (List.replicate 6 (.ok []))).2 = 4 := by
  refine ⟨rfl, rfl, rfl⟩

/-- C7 counterexample: after failed polls caused by empty fetches the sleep
is the fixed poll interval (60s here) no matter how high the
consecutive-failure count is — it does not increase. -/
theorem C7_empty_failure_sleeps_fixed_interval :
    (monitorStep 60 ⟨[], [], 0⟩ (.ok [])).sleep = 60
    ∧ (monitorStep 60 ⟨[], [], 1⟩ (.ok [])).sleep = 60
    ∧ (monitorStep 60 ⟨[], [], 7⟩ (.ok [])).sleep = 60 := by
  refine ⟨rfl, rfl, rfl⟩

/-- C7 amended: only an iteration that raised an exception backs off, with
sleep `min(30 * consecutive_failures, 300)` — growing with the count and
capped at 5 minutes (source line 603); an iteration whose fetch merely
returned a snapshot, empty or not, sleeps the fixed poll interval
(source line 587). -/
theorem C7_backoff_only_on_exception :
    (∀ (pollSeconds : Nat) (st : LoopState),
      (monitorStep pollSeconds st .exn).sleep = min (30 * (st.consecutive_errors + 1)) 300)
    ∧ (∀ (pollSeconds : Nat) (st : LoopState) (s : Snapshot),
      (monitorStep pollSeconds st (.ok s)).sleep = pollSeconds)
    ∧ (∀ (pollSeconds : Nat) (st : LoopState),
      (monitorStep pollSeconds st .exn).sleep ≤ 300) := by
  refine ⟨fun pollSeconds st => rfl, fun pollSeconds st s => ?_, fun pollSeconds st => ?_⟩
  · simp only [monitorStep]
    split
    · split <;> rfl
    · rfl
  · exact min_le_right _ _

theorem keepLast_eq_reverse_take {α : Type} (n : Nat) (l : List α) :
    keepLast n l = (l.reverse.take n).reverse := by
  have h1 : (keepLast n l).reverse = l.reverse.take (l.length - (l.length - n)) := by
    unfold keepLast
    exact List.reverse_drop
  have h2 : l.reverse.take (l.length - (l.length - n)) = l.reverse.take n := by
    apply List.take_eq_take.mpr
    simp only [List.length_reverse]
    omega
  calc keepLast n l = ((keepLast n l).reverse).reverse := (List.reverse_reverse _).symm
    _ = (l.reverse.take n).reverse := by rw [h1, h2]

theorem take_append_take {α : Type} (n : Nat) (a b : List α) :
    (a ++ b.take n).take n = (a ++ b).take n := by
  rw [List.take_append_eq_append_take, List.take_append_eq_append_take, List.take_take,
    Nat.min_eq_left (Nat.sub_le n a.length)]

theorem keepLast_append {α : Type} (n : Nat) (l l2 : List α) :
    keepLast n (keepLast n l ++ l2) = keepLast n (l ++ l2) := by
  simp only [keepLast_eq_reverse_take, List.reverse_append, List.reverse_reverse]
  rw [take_append_take]

theorem keepLast_length_le {α : Type} (n : Nat) (l : List α) :
    (keepLast n l).length ≤ n := by
  unfold keepLast
  rw [List.length_drop]
  omega

theorem keepLast_of_le {α : Type} {n : Nat} {l : List α} (h : l.length ≤ n) :
    keepLast n l = l := by
  unfold keepLast
  rw [Nat.sub_eq_zero_of_le h, List.drop_zero]

set_option maxRecDepth 4000 in
/-- C8: over any run of successful (non-empty) polls starting from a history
within the cap, the final snapshot history is exactly the last `historyCap`
(200) entries of the full append sequence, in order — so it stays bounded by
the cap and the oldest entries are the ones evicted. -/
theorem C8_bounded_history :
    ∀ (pollSeconds : Nat) (ss : List Snapshot) (st : LoopState),
      (∀ s ∈ ss, s.isEmpty = false) →
      st.price_history.length ≤ historyCap →
      (runLoop pollSeconds st (ss.map FetchOutcome.ok)).1.price_history
          = keepLast historyCap (st.price_history ++ ss)
        ∧ (runLoop pollSeconds st (ss.map FetchOutcome.ok)).1.price_history.length ≤ historyCap
        ∧ (runLoop pollSeconds st (ss.map FetchOutcome.ok)).1.price_history
            <:+ (st.price_history ++ ss) := by
  intro pollSeconds ss
  induction ss with
  | nil =>
    intro st _ hlen
    simp only [List.map_nil, runLoop, List.append_nil]
    exact ⟨(keepLast_of_le hlen).symm, hlen, List.suffix_refl _⟩
  | cons s rest ih =>
    intro st hne hlen
    have hs : s.isEmpty = false := hne s (by simp)
    have hstate : (monitorStep pollSeconds st (.ok s)).state
        = ⟨s, keepLast historyCap (st.price_history ++ [s]), 0⟩ := by
      simp only [monitorStep, hs, Bool.false_eq_true, if_false]
    have hrun : (runLoop pollSeconds st ((s :: rest).map FetchOutcome.ok)).1
        = (runLoop pollSeconds (monitorStep pollSeconds st (.ok s)).state
            (rest.map FetchOutcome.ok)).1 := rfl
    obtain ⟨ih1, ih2, ih3⟩ := ih ⟨s, keepLast historyCap (st.price_history ++ [s]), 0⟩
      (fun x hx => hne x (List.mem_cons_of_mem _ hx)) (keepLast_length_le _ _)
    have hmain : (runLoop pollSeconds st ((s :: rest).map FetchOutcome.ok)).1.price_history
        = keepLast historyCap (st.price_history ++ s :: rest) := by
      rw [hrun, hstate, ih1]
      show keepLast historyCap (keepLast historyCap (st.price_history ++ [s]) ++ rest) = _
      rw [keepLast_append, List.append_assoc, List.singleton_append]
    refine ⟨hmain, hmain ▸ keepLast_length_le _ _, hmain ▸ ?_⟩
    unfold keepLast
    exact List.drop_suffix _ _

/-- Witness for C8: two successful polls from a fresh state retain both
snapshots in order. -/
theorem C8_bounded_history_witness :
    (runLoop 60 ⟨[], [], 0⟩
        ([[("A", ⟨"kg", 10, none, 0⟩)], [("A", ⟨"kg", 12, none, 0⟩)]].map
          FetchOutcome.ok)).1.price_history
        = keepLast historyCap
            ((⟨[], [], 0⟩ : LoopState).price_history
              ++ [[("A", ⟨"kg", 10, none, 0⟩)], [("A", ⟨"kg", 12, none, 0⟩)]])
      ∧ (runLoop 60 ⟨[], [], 0⟩
          ([[("A", ⟨"kg", 10, none, 0⟩)], [("A", ⟨"kg", 12, none, 0⟩)]].map
            FetchOutcome.ok)).1.price_history.length ≤ historyCap
      ∧ (runLoop 60 ⟨[], [], 0⟩
          ([[("A", ⟨"kg", 10, none, 0⟩)], [("A", ⟨"kg", 12, none, 0⟩)]].map
            FetchOutcome.ok)).1.price_history
          <:+ ((⟨[], [], 0⟩ : LoopState).price_history
            ++ [[("A", ⟨"kg", 10, none, 0⟩)], [("A", ⟨"kg", 12, none, 0⟩)]]) :=
  C8_bounded_history 60 [[("A", ⟨"kg", 10, none, 0⟩)], [("A", ⟨"kg", 12, none, 0⟩)]]
    ⟨[], [], 0⟩ (by decide) (by decide)

/-- The three-way outcome of one `bot.send_message` call to a subscriber:
success, the two "user blocked the bot or deleted the chat" exceptions
caught at source line 509, or any other exception (source line 512). -/
inductive SendResult
  | ok
  | forbidden
  | badRequest
  | otherError
deriving DecidableEq

/-- The subscriber loop of `notify_change` (source lines 497-514): walks the
subscriber list, counting successful sends and collecting
`failed_subscribers` in order.  Both the `(Forbidden, BadRequest)` branch
and the generic exception branch append the subscriber to the failed
list. -/
def sendAll (send : Int → SendResult) : List Int → List Int × Nat
  | [] => ([], 0)
  | u :: us =>
    let rest := sendAll send us
    match send u with
    | .ok => (rest.1, rest.2 + 1)
    | .forbidden => (u :: rest.1, rest.2)
    | .badRequest => (u :: rest.1, rest.2)
    | .otherError => (u :: rest.1, rest.2)

/-- What a dispatch leaves behind: the surviving subscriber list, how many
times `save_subscribers` was called, and the number of successful sends. -/
structure DispatchResult where
  remaining : List Int
  saveCalls : Nat
  successfulSends : Nat
deriving DecidableEq

/-- The whole subscriber-dispatch phase of `notify_change` (source lines
497-523): send to every subscriber, then discard every failed subscriber
from the set and persist it once, only if some send failed (source lines
517-521).  The subscriber set is modelled as the list iterated over. -/
def notify_change_dispatch (subs : List Int) (send : Int → SendResult) : DispatchResult :=
  let fs := sendAll send subs
  ⟨subs.filter (fun u => decide (u ∉ fs.1)), if fs.1.isEmpty then 0 else 1, fs.2⟩

theorem mem_sendAll_fst {send : Int → SendResult} :
    ∀ {l : List Int} {u : Int}, u ∈ (sendAll send l).1 ↔ (u ∈ l ∧ send u ≠ .ok) := by
  intro l
  induction l with
  | nil => simp [sendAll]
  | cons v vs ih =>
    intro u
    simp only [sendAll]
    cases hv : send v with
    | ok =>
      simp only [List.mem_cons, ih]
      constructor
      · rintro ⟨h1, h2⟩
        exact ⟨Or.inr h1, h2⟩
      · rintro ⟨h1 | h1, h2⟩
        · exact absurd hv (h1 ▸ h2)
        · exact ⟨h1, h2⟩
    | forbidden =>
      simp only [List.mem_cons, ih]
      constructor
      · rintro (h1 | ⟨h1, h2⟩)
        · exact ⟨Or.inl h1, h1 ▸ (by simp [hv])⟩
        · exact ⟨Or.inr h1, h2⟩
      · rintro ⟨h1 | h1, h2⟩
        · exact Or.inl h1
        · exact Or.inr ⟨h1, h2⟩
    | badRequest =>
      simp only [List.mem_cons, ih]
      constructor
      · rintro (h1 | ⟨h1, h2⟩)
        · exact ⟨Or.inl h1, h1 ▸ (by simp [hv])⟩
        · exact ⟨Or.inr h1, h2⟩
      · rintro ⟨h1 | h1, h2⟩
        · exact Or.inl h1
        · exact Or.inr ⟨h1, h2⟩
    | otherError =>
      simp only [List.mem_cons, ih]
      constructor
      · rintro (h1 | ⟨h1, h2⟩)
        · exact ⟨Or.inl h1, h1 ▸ (by simp [hv])⟩
        · exact ⟨Or.inr h1, h2⟩
      · rintro ⟨h1 | h1, h2⟩
        · exact Or.inl h1
        · exact Or.inr ⟨h1, h2⟩

theorem sendAll_snd {send : Int → SendResult} :
    ∀ l : List Int, (sendAll send l).2 = (l.filter (fun u => decide (send u = .ok))).length := by
  intro l
  induction l with
  | nil => rfl
  | cons v vs ih =>
    simp only [sendAll]
    cases hv : send v with
    | ok => simp [List.filter_cons, hv, ih]
    | forbidden => simp [List.filter_cons, hv, ih]
    | badRequest => simp [List.filter_cons, hv, ih]
    | otherError => simp [List.filter_cons, hv, ih]

theorem sendAll_fst_isEmpty {send : Int → SendResult} :
    ∀ l : List Int, (sendAll send l).1.isEmpty = l.all (fun u => decide (send u = .ok)) := by
  intro l
  induction l with
  | nil => rfl
  | cons v vs ih =>
    simp only [sendAll]
    cases hv : send v with
    | ok => simp [hv, ih]
    | forbidden => simp [hv]
    | badRequest => simp [hv]
    | otherError => simp [hv]

/-- C5 counterexample: a subscriber whose send fails with a generic
(transient) error is removed from the subscriber set, not retained — the
generic exception branch (source lines 512-514) also appends to
`failed_subscribers`. -/
theorem C5_transient_failure_removed :
    (notify_change_dispatch [7] (fun _ => SendResult.otherError)).remaining = []
    ∧ (notify_change_dispatch [7] (fun _ => SendResult.otherError)).saveCalls = 1 := by
  refine ⟨rfl, rfl⟩

/-- C5 amended: each subscriber's outcome depends only on its own send
result (isolation); a subscriber is removed iff its send failed for any
reason — permanently unreachable (Forbidden/BadRequest) or any other
error alike; and the set is persisted exactly once after the iteration
when some send failed, not at all otherwise. -/
theorem C5_dispatch_independent_prune_once :
    ∀ (subs : List Int) (send : Int → SendResult),
      (notify_change_dispatch subs send).remaining
          = subs.filter (fun u => decide (send u = SendResult.ok))
        ∧ (notify_change_dispatch subs send).successfulSends
          = (subs.filter (fun u => decide (send u = SendResult.ok))).length
        ∧ (notify_change_dispatch subs send).saveCalls
          = (if subs.all (fun u => decide (send u = SendResult.ok)) then 0 else 1)
        ∧ (∀ u : Int, u ∈ (notify_change_dispatch subs send).remaining
            ↔ (u ∈ subs ∧ send u = SendResult.ok)) := by
  intro subs send
  have hrem : (notify_change_dispatch subs send).remaining
      = subs.filter (fun u => decide (send u = SendResult.ok)) := by
    show subs.filter _ = subs.filter _
    apply List.filter_congr
    intro u hu
    rcases h : send u with _ | _ | _ | _ <;>
      simp [mem_sendAll_fst, hu, h]
  refine ⟨hrem, sendAll_snd subs, ?_, ?_⟩
  · show (if (sendAll send subs).1.isEmpty then 0 else 1) = _
    rw [sendAll_fst_isEmpty]
  · intro u
    rw [hrem]
    simp only [List.mem_filter, decide_eq_true_eq]

/-- The buy-side derived values computed by `notify_change` (source lines
450-457): `delta_buy = cur_buy - prev_buy` and
`pct = delta_buy / prev_buy * 100 if prev_buy else 0.0`.  Python floats are
modelled as exact rationals. -/
def notify_change_values (prev : PrevQuote) (cur : PriceRecord) : Int × ℚ :=
  let prev_buy := prev.buy_price
  let cur_buy := cur.buy_price
  let delta_buy : Int := (cur_buy : Int) - (prev_buy : Int)
  (delta_buy, if prev_buy ≠ 0 then ((delta_buy : ℚ) / (prev_buy : ℚ)) * 100 else 0)

/-- The static method `spread` (source lines 392-398): when a sell price is
present, positive, and the buy price is positive, the spread and its
percentage of the buy price; otherwise `(0, 0.0)`. -/
def spread (buy : Nat) (sell : Option Nat) : Int × ℚ :=
  match sell with
  | some s =>
    if 0 < s ∧ 0 < buy then
      ((s : Int) - (buy : Int), ((((s : Int) - (buy : Int)) : ℚ) / (buy : ℚ)) * 100)
    else (0, 0)
  | none => (0, 0)

/-- C9: the derived values are `buy_delta = cur.buy - prev.buy`,
`buy_delta_pct = buy_delta / prev.buy * 100` (0 when the previous buy price
is zero, as it is for the absent-product sentinel), and, for a positive
current sell price with positive buy price,
`spread = sell - buy` and `spread_pct = spread / buy * 100`; at the
spec's scenario (prev buy 1000000 sell 1050000, cur buy 1020000 sell
1050000) this gives delta 20000, pct exactly 2, spread 30000, pct within
0.01 of 2.94, and the detector emits exactly that one change record. -/
theorem C9_derived_values :
    (∀ (prev : PrevQuote) (cur : PriceRecord),
      (notify_change_values prev cur).1 = (cur.buy_price : Int) - (prev.buy_price : Int)
      ∧ (prev.buy_price = 0 → (notify_change_values prev cur).2 = 0)
      ∧ (0 < prev.buy_price →
          (notify_change_values prev cur).2
            = (((cur.buy_price : ℚ) - (prev.buy_price : ℚ)) / (prev.buy_price : ℚ)) * 100))
    ∧ (∀ (buy s : Nat), 0 < s → 0 < buy →
        (spread buy (some s)).1 = (s : Int) - (buy : Int)
        ∧ (spread buy (some s)).2 = (((s : ℚ) - (buy : ℚ)) / (buy : ℚ)) * 100)
    ∧ ((notify_change_values ⟨1000000, some 1050000⟩ ⟨"", 1020000, some 1050000, 0⟩).1 = 20000
      ∧ (notify_change_values ⟨1000000, some 1050000⟩ ⟨"", 1020000, some 1050000, 0⟩).2 = 2
      ∧ (spread 1020000 (some 1050000)).1 = 30000
      ∧ |(spread 1020000 (some 1050000)).2 - 147 / 50| < 1 / 100
      ∧ compare_and_notify [("SilverBar", ⟨"", 1000000, some 1050000, 0⟩)]
          [("SilverBar", ⟨"", 1020000, some 1050000, 0⟩)]
          = [⟨"SilverBar", ⟨1000000, some 1050000⟩, ⟨"", 1020000, some 1050000, 0⟩⟩]) := by
  refine ⟨?_, ?_, ?_, ?_, ?_, ?_, ?_⟩
  · intro prev cur
    refine ⟨rfl, ?_, ?_⟩
    · intro h
      simp [notify_change_values, h]
    · intro h
      have h0 : prev.buy_price ≠ 0 := Nat.pos_iff_ne_zero.mp h
      simp only [notify_change_values, if_pos h0]
      push_cast
      ring
  · intro buy s hs hb
    refine ⟨?_, ?_⟩
    · simp [spread, hs, hb]
    · simp only [spread, if_pos (And.intro hs hb)]
      push_cast
      ring
  · rfl
  · norm_num [notify_change_values]
  · rfl
  · have hval : (spread 1020000 (some 1050000)).2 = 50 / 17 := by
      norm_num [spread]
    rw [hval]
    rw [abs_sub_lt_iff]
    norm_num
  · rfl

/-- Witness for C9: the general clauses applied at concrete prices. -/
theorem C9_derived_values_witness :
    (notify_change_values ⟨4, none⟩ ⟨"", 5, none, 0⟩).2 = (((5 : ℚ) - (4 : ℚ)) / (4 : ℚ)) * 100
    ∧ (spread 3 (some 7)).1 = (7 : Int) - (3 : Int) :=
  ⟨(C9_derived_values.1 ⟨4, none⟩ ⟨"", 5, none, 0⟩).2.2 (by norm_num),
    ((C9_derived_values.2.1 3 7 (by norm_num) (by norm_num)).1)⟩

/-- Read a list of digit characters as a number, like
`int("".join(numbers))` over the concatenated digit runs. -/
def digitsToNat (cs : List Char) : Nat :=
  cs.foldl (fun a c => a * 10 + (c.toNat - '0'.toNat)) 0

/-- `_parse_price_num` (source lines 381-386): empty or "-" inputs give 0;
otherwise the digit characters (separators contribute none) are
concatenated and read as an integer, 0 when there are none. -/
def parse_price_num (s : String) : Nat :=
  if s = "" ∨ s = "-" then 0
  else digitsToNat (s.toList.filter Char.isDigit)

/-- Python's substring test `needle in hay` on character lists. -/
def sublistAt : List Char → List Char → Bool
  | needle, [] => needle.isEmpty
  | needle, c :: rest => needle.isPrefixOf (c :: rest) || sublistAt needle rest

/-- The silver-product filter (source lines 260 and 320):
`any(keyword in product.upper() for keyword in ["BẠC", "SILVER", "AG"])`,
with ASCII-only uppercasing in this model. -/
def isSilverName (product : String) : Bool :=
  ["BẠC", "SILVER", "AG"].any
    (fun k => sublistAt k.toList (product.toList.map Char.toUpper))

/-- The column scan of one table row (source lines 267-280): walk the cells
after the product name; on the first positive numeric value, assign the buy
price (or, had the buy price already been set, the sell price) and break
out of the loop. -/
def scanPriceCols (buy_price sell_price : Nat) : List String → Nat × Nat
  | [] => (buy_price, sell_price)
  | t :: rest =>
    let price_val := parse_price_num t
    if 0 < price_val then
      if buy_price = 0 then (price_val, sell_price)
      else if sell_price = 0 then (buy_price, price_val)
      else (buy_price, sell_price)
    else scanPriceCols buy_price sell_price rest

/-- Python dict assignment `prices[product] = rec`: overwrite the existing
entry in place, or append a new one at the end. -/
def dictInsert : Snapshot → String → PriceRecord → Snapshot
  | [], k, v => [(k, v)]
  | (k', v') :: rest, k, v =>
    if k' = k then (k', v) :: rest else (k', v') :: dictInsert rest k v

/-- Process one table row (source lines 249-290): rows with fewer than 3
cells or with a non-silver product name are skipped; otherwise the cells
are scanned for prices and a record is stored only when a positive buy
price was found, with the sell price stored as None unless positive. -/
def parseRowInto (now : Nat) (s : Snapshot) (texts : List String) : Snapshot :=
  if texts.length < 3 then s
  else
    let product := texts.headD ""
    if isSilverName product then
      let unit := if 1 < texts.length then texts.getD 1 "" else ""
      let scanned := scanPriceCols 0 0 (texts.drop 1)
      if 0 < scanned.1 then
        dictInsert s product
          ⟨unit, scanned.1, if 0 < scanned.2 then some scanned.2 else none, now⟩
      else s
    else s

/-- The line preprocessing of `parse_prices_alternative` (source line 316):
split the page text on newlines, strip each line, drop blanks. -/
def altLines (allText : String) : List String :=
  ((allText.splitOn "\n").map (fun l => l.trim)).filter (fun l => decide (l ≠ ""))

/-- The inner scan of `parse_prices_alternative` (source lines 325-333):
the first positive numeric value among the next three lines. -/
def firstPriceAfter (lines : List String) (i : Nat) : Option Nat :=
  ((List.range' (i + 1) (min (i + 4) lines.length - (i + 1))).map
    (fun j => parse_price_num (lines.getD j ""))).find? (fun v => decide (0 < v))

/-- `parse_prices_alternative` (source lines 310-340): for every line
naming a silver product, store a record with the first price found in the
following three lines — with `sell_price: None` unconditionally
(source line 331). -/
def parse_prices_alternative (now : Nat) (allText : String) : Snapshot :=
  (List.range (altLines allText).length).foldl
    (fun s i =>
      if isSilverName ((altLines allText).getD i "") then
        match firstPriceAfter (altLines allText) i with
        | some v => dictInsert s ((altLines allText).getD i "") ⟨"", v, none, now⟩
        | none => s
      else s) []

/-- `parse_prices` (source lines 232-308): the table scan over all rows of
all tables (the HTML-to-cell extraction done by BeautifulSoup is modelled
by taking the tables as lists of rows of cell texts), falling back to the
text-based alternative parser when the tables produced nothing. -/
def parse_prices (now : Nat) (tables : List (List (List String))) (allText : String) : Snapshot :=
  let tablePrices := tables.flatten.foldl (parseRowInto now) []
  if tablePrices.isEmpty then parse_prices_alternative now allText else tablePrices

theorem scanPriceCols_snd_zero : ∀ ts : List String, (scanPriceCols 0 0 ts).2 = 0 := by
  intro ts
  induction ts with
  | nil => rfl
  | cons t rest ih =>
    simp only [scanPriceCols]
    by_cases h : 0 < parse_price_num t
    · rw [if_pos h]
      rfl
    · rw [if_neg h]
      exact ih

theorem mem_dictInsert :
    ∀ (s : Snapshot) (k : String) (v : PriceRecord) (p : String) (r : PriceRecord),
      (p, r) ∈ dictInsert s k v → (p, r) ∈ s ∨ r = v := by
  intro s k v
  induction s with
  | nil =>
    intro p r h
    simp only [dictInsert, List.mem_singleton] at h
    injection h with h1 h2
    exact Or.inr h2
  | cons e rest ih =>
    intro p r h
    obtain ⟨k', v'⟩ := e
    by_cases hk : k' = k
    · simp only [dictInsert, if_pos hk] at h
      rcases List.mem_cons.mp h with h1 | h1
      · injection h1 with h1a h1b
        exact Or.inr h1b
      · exact Or.inl (List.mem_cons_of_mem _ h1)
    · simp only [dictInsert, if_neg hk] at h
      rcases List.mem_cons.mp h with h1 | h1
      · exact Or.inl (List.mem_cons.mpr (Or.inl h1))
      · rcases ih p r h1 with h2 | h2
        · exact Or.inl (List.mem_cons_of_mem _ h2)
        · exact Or.inr h2

/-- Every record of the snapshot has no sell price. -/
def sellsNone (s : Snapshot) : Prop :=
  ∀ p r, (p, r) ∈ s → r.sell_price = none

theorem sellsNone_dictInsert {s : Snapshot} {k : String} {v : PriceRecord}
    (hs : sellsNone s) (hv : v.sell_price = none) : sellsNone (dictInsert s k v) := by
  intro p r hr
  rcases mem_dictInsert s k v p r hr with h | h
  · exact hs p r h
  · rw [h]
    exact hv

theorem foldl_sellsNone {β : Type} {g : Snapshot → β → Snapshot}
    (hg : ∀ s b, sellsNone s → sellsNone (g s b)) :
    ∀ (l : List β) (s : Snapshot), sellsNone s → sellsNone (l.foldl g s) := by
  intro l
  induction l with
  | nil => intro s hs; exact hs
  | cons b bs ih =>
    intro s hs
    exact ih (g s b) (hg s b hs)

theorem sellsNone_parseRowInto (now : Nat) :
    ∀ (s : Snapshot) (texts : List String),
      sellsNone s → sellsNone (parseRowInto now s texts) := by
  intro s texts hs
  simp only [parseRowInto]
  split
  · exact hs
  · split
    · split
      · apply sellsNone_dictInsert hs
        show (if 0 < (scanPriceCols 0 0 (texts.drop 1)).2
            then some (scanPriceCols 0 0 (texts.drop 1)).2 else none) = none
        rw [scanPriceCols_snd_zero]
        rfl
      · exact hs
    · exact hs

/-- C10: every price record produced by `parse_prices` has no sell price:
the table-row column scan breaks right after assigning the first positive
value as the buy price, so the sell slot stays 0 and is stored as None,
and the text-based alternative parser stores None unconditionally. -/
theorem C10_sell_price_always_none :
    ∀ (now : Nat) (tables : List (List (List String))) (allText : String)
      (p : String) (r : PriceRecord),
      (p, r) ∈ parse_prices now tables allText → r.sell_price = none := by
  intro now tables allText p r hmem
  have hnil : sellsNone ([] : Snapshot) := by
    intro p r h
    simp at h
  have htab : sellsNone (tables.flatten.foldl (parseRowInto now) []) :=
    foldl_sellsNone (fun s b hb => sellsNone_parseRowInto now s b hb) tables.flatten [] hnil
  have halt : sellsNone (parse_prices_alternative now allText) := by
    unfold parse_prices_alternative
    apply foldl_sellsNone ?_ _ [] hnil
    intro s i hsi
    split
    · split
      · exact sellsNone_dictInsert hsi rfl
      · exact hsi
    · exact hsi
  simp only [parse_prices] at hmem
  split at hmem
  · exact halt p r hmem
  · exact htab p r hmem

/-- Witness for C10: a concrete silver table row parses to a record with
buy price 100 and no sell price, although the row carried a second price
column. -/
theorem C10_sell_price_always_none_witness :
    (("BẠC MIENG", (⟨"g", 100, none, 0⟩ : PriceRecord))
        ∈ parse_prices 0 [[["BẠC MIENG", "g", "100", "200"]]] "")
    ∧ (⟨"g", 100, none, 0⟩ : PriceRecord).sell_price = none :=
  ⟨by decide,
    C10_sell_price_always_none 0 [[["BẠC MIENG", "g", "100", "200"]]] ""
      "BẠC MIENG" ⟨"g", 100, none, 0⟩ (by decide)⟩
